import Mathlib

/-!
# Verification of the audio-bible downloader (`abdl.js`)

A shallow embedding of the logic of `src/abdl.js`.  JSON responses from the
remote API are modelled by the inductive type `Json` (with an explicit
`undefined` constructor for JavaScript `undefined`, the result of reading an
absent object member).  Network fetches are modelled by passing a pure
`server : String → Json` function mapping request URLs to responses; the
single piece of process-wide mutable state, the book-list memo cache
(`let bookListCache = null`), is modelled by explicit state passing of `St`.
Thrown `Error`s become `Except Err` results, each `Err` constructor carrying
the data the corresponding JS error message interpolates.
-/

namespace Abdl

/-- JSON values as delivered by the remote API.  `undefined` models JavaScript
`undefined` (reading an absent object member); numbers are idealized as `Int`
(the code only tests truthiness of the numbers it meets). -/
inductive Json where
  | undefined : Json
  | null : Json
  | bool (b : Bool) : Json
  | num (n : Int) : Json
  | str (s : String) : Json
  | arr (items : List Json) : Json
  | obj (fields : List (String × Json)) : Json

/-- JavaScript member access `j.key`: the field's value on an object that has
the member, `undefined` otherwise. -/
def Json.get (j : Json) (key : String) : Json :=
  match j with
  | .obj fields =>
    match fields.find? (fun f => f.1 == key) with
    | some f => f.2
    | none => .undefined
  | _ => .undefined

/-- JavaScript array indexing `j[i]`: the element on an array long enough,
`undefined` otherwise. -/
def Json.idx (j : Json) (i : Nat) : Json :=
  match j with
  | .arr items => items.getD i .undefined
  | _ => .undefined

/-- JavaScript truthiness of the modelled values (`undefined`, `null`,
`false`, `0` and `""` are falsy; arrays and objects are always truthy). -/
def Json.truthy : Json → Bool
  | .undefined => false
  | .null => false
  | .bool b => b
  | .num n => n != 0
  | .str s => !s.data.isEmpty
  | .arr _ => true
  | .obj _ => true

/-- `Array.isArray`. -/
def Json.isArray : Json → Bool
  | .arr _ => true
  | _ => false

/-- JavaScript `.length` of a value known (or not) to be an array; on
non-arrays the member is `undefined`. -/
def Json.lengthVal : Json → Json
  | .arr items => .num items.length
  | _ => .undefined

/-- JavaScript strict equality `j === s` against a string: true exactly when
`j` is that string. -/
def Json.strEq (j : Json) (s : String) : Bool :=
  match j with
  | .str t => t == s
  | _ => false

/-- JavaScript string coercion (template literals).  Array coercion
(comma-joined elements) does not occur on the modelled paths and is
totalized to `""`. -/
def Json.asString : Json → String
  | .undefined => "undefined"
  | .null => "null"
  | .bool b => if b then "true" else "false"
  | .num n => toString n
  | .str s => s
  | .arr _ => ""
  | .obj _ => "[object Object]"

/-- The errors thrown by `abdl.js`, each carrying the data its message
interpolates: `malformed` is `Error('Unexpected response:\n' +
JSON.stringify(json, null, 2))` and carries the full raw payload;
`notFound` is `Error('Did not find book id: ' + bookId)`;
`invalidFormat` is `Error('Chapter must be a number or a range (e.g. 3-5)')`;
`invalidRange` is `Error('Invalid range: ' + chapterArg)`. -/
inductive Err where
  | malformed (payload : Json) : Err
  | notFound (bookId : String) : Err
  | invalidFormat : Err
  | invalidRange (chapterArg : String) : Err

/-- Function `validateResponseHasItems(json)`: throws the malformed-response error
(carrying the raw payload) unless `json.items` is an array. -/
def validateResponseHasItems (json : Json) : Except Err Unit :=
  if !(json.get "items").isArray then .error (.malformed json) else .ok ()

/-- Function `validateMetadataResponse(json)`: throws the malformed-response error
(carrying the raw payload) unless `json.audio` is a non-empty array whose
first entry has a truthy `download_urls.format_mp3_32k`, and
`json.reference.human` is truthy. -/
def validateMetadataResponse (json : Json) : Except Err Unit :=
  if !(json.get "audio").isArray
      || !(json.get "audio").lengthVal.truthy
      || !(((json.get "audio").idx 0).get "download_urls").truthy
      || !((((json.get "audio").idx 0).get "download_urls").get "format_mp3_32k").truthy
      || !(json.get "reference").truthy
      || !((json.get "reference").get "human").truthy
  then .error (.malformed json)
  else .ok ()

/-- The test `audioUrl.startsWith('//')` on the modelled strings. -/
def startsWithDoubleSlash (u : String) : Bool :=
  match u.data with
  | '/' :: '/' :: _ => true
  | _ => false

/-- The URL normalization step of `fetchMetadata`:
`audioUrl.startsWith('//') ? ('https:' + audioUrl) : audioUrl`. -/
def normalizeAudioUrl (u : String) : String :=
  if startsWithDoubleSlash u then "https:" ++ u else u

/-- The value `fetchMetadata` resolves for one chapter. -/
structure Metadata where
  audioUrl : String
  chapterName : String
deriving Repr, DecidableEq

/-- Function `fetchMetadata(translationId, bookId, chapter)` applied to the JSON the
metadata endpoint returned: validates the shape, then reads
`json.reference.human` and `json.audio[0].download_urls.format_mp3_32k`
and normalizes a protocol-relative URL. -/
def fetchMetadata (json : Json) : Except Err Metadata :=
  match validateMetadataResponse json with
  | .error e => .error e
  | .ok _ =>
    let chapterName := ((json.get "reference").get "human").asString
    let audioUrl := ((((json.get "audio").idx 0).get "download_urls").get
      "format_mp3_32k").asString
    .ok { audioUrl := normalizeAudioUrl audioUrl, chapterName := chapterName }

/-- The process-wide mutable state: `let bookListCache = null`.  The JS
variable holds either `null` or the (truthy, even when empty) array
`json.items`, hence an `Option`. -/
structure St where
  bookListCache : Option (List Json)

/-- URL built by `fetchBookList`. -/
def bookListUrl (translationId : String) : String :=
  "https://www.bible.com/json/bible/books/" ++ translationId

/-- URL built by `getChapterRange` for the chapter list. -/
def chaptersUrl (translationId bookId : String) : String :=
  "https://www.bible.com/json/bible/books/" ++ translationId ++ "/" ++ bookId ++ "/chapters"

/-- Function `fetchBookList(translationId)`: returns the cache when populated;
otherwise fetches the book list, validates that `json.items` is an array,
stores it in the cache and returns it.  Note the cache test is
`if (bookListCache) return bookListCache` — it does not look at
`translationId`. -/
def fetchBookList (server : String → Json) (translationId : String) (st : St) :
    St × Except Err (List Json) :=
  match st.bookListCache with
  | some cache => (st, .ok cache)
  | none =>
    let json := server (bookListUrl translationId)
    match validateResponseHasItems json, json.get "items" with
    | .error e, _ => (st, .error e)
    | .ok _, .arr items => (⟨some items⟩, .ok items)
    | .ok _, _ => (st, .error (.malformed json))

/-- The lines `printBookList` writes: one `` `${item.usfm}:\t${item.human}` ``
per entry. -/
def bookListLines (items : List Json) : List String :=
  items.map (fun item => (item.get "usfm").asString ++ ":\t" ++ (item.get "human").asString)

/-- JavaScript `Array.prototype.findIndex`: index of the first match, `-1`
when none matches. -/
def findIndex (p : Json → Bool) : List Json → Int
  | [] => -1
  | x :: xs =>
    if p x then 0
    else
      let r := findIndex p xs
      if r < 0 then -1 else r + 1

/-- The whitespace class of the regex `/\s+/` restricted to ASCII (the JS
class also covers Unicode spaces, which do not occur in the modelled names). -/
def isJsSpace (c : Char) : Bool :=
  c == ' ' || c == '\t' || c == '\n' || c == '\r' || c == '\x0b' || c == '\x0c'

/-- Worker for `replace(/\s+/g, '_')`: `inRun` records whether the previous
character was whitespace, so each maximal whitespace run yields one `_`. -/
def collapseWsAux (inRun : Bool) : List Char → List Char
  | [] => []
  | c :: cs =>
    if isJsSpace c then
      if inRun then collapseWsAux true cs else '_' :: collapseWsAux true cs
    else c :: collapseWsAux false cs

/-- The substitution `s.replace(/\s+/g, '_')`: every maximal run of whitespace becomes a
single underscore. -/
def replaceWhitespace (s : String) : String :=
  ⟨collapseWsAux false s.data⟩

/-- The padding `s.padStart(2, '0')`: left-pad with zeros up to length 2 (longer strings
are returned unchanged). -/
def padStart2 (s : String) : String :=
  if s.length < 2 then ⟨List.replicate (2 - s.length) '0' ++ s.data⟩ else s

/-- The directory name `mkdir` computes once the book is found at position
`index` (0-based): the entry's `human` name with whitespace collapsed to
underscores, prefixed by `String(index+1).padStart(2, '0') + '-'` when
`canonical` is set. -/
def dirnameOf (items : List Json) (index : Nat) (canonical : Bool) : String :=
  let base := replaceWhitespace ((items.getD index Json.undefined).get "human").asString
  if canonical then padStart2 (Nat.repr (index + 1)) ++ "-" ++ base else base

/-- Function `mkdir(translationId, bookId, canonical)`: fetches the book list (through
the cache), locates `bookId` by `findIndex(item => item.usfm === bookId)`;
when absent, prints the full book list (the `List String` component models
the console output) and throws the not-found error; when present, builds the
directory name from the matched entry.  Filesystem directory creation is
side-effect-only in the JS and is not modelled. -/
def mkdir (server : String → Json) (translationId bookId : String) (canonical : Bool)
    (st : St) : St × List String × Except Err String :=
  match fetchBookList server translationId st with
  | (st', .error e) => (st', [], .error e)
  | (st', .ok items) =>
    let index := findIndex (fun item => (item.get "usfm").strEq bookId) items
    if index < 0 then
      (st', bookListLines items, .error (.notFound bookId))
    else
      let dirname := dirnameOf items index.toNat canonical
      (st', ["Making directory " ++ dirname], .ok dirname)

/-- JavaScript truthiness of the `chapters` argument: `null` (no chapter
expression given) and the empty string are falsy. -/
def jsFalsy : Option String → Bool
  | none => true
  | some s => s.data.isEmpty

/-- JavaScript `s.split('-')` on the character list: always returns at least
one (possibly empty) chunk; a separator at either end yields an empty chunk
there. -/
def splitOnDash : List Char → List (List Char)
  | [] => [[]]
  | c :: cs =>
    if c = '-' then [] :: splitOnDash cs
    else
      match splitOnDash cs with
      | [] => [[c]]
      | p :: ps => (c :: p) :: ps

/-- A non-empty chunk of decimal digits: the `\d+` of the regex. -/
def isDigits (cs : List Char) : Bool :=
  !cs.isEmpty && cs.all (fun c => c.isDigit)

/-- The regex test `chapterArg.match(/^\d+(-\d+)?$/)`: either one chunk of digits or two
chunks of digits separated by a single dash. -/
def matchesChapterGrammar (s : String) : Bool :=
  match splitOnDash s.data with
  | [a] => isDigits a
  | [a, b] => isDigits a && isDigits b
  | _ => false

/-- JavaScript `Number()` on the digit-only chunks the grammar admits
(idealized to `Nat`; the chunks contain only decimal digits). -/
def digitsToNat (cs : List Char) : Nat :=
  cs.foldl (fun acc c => 10 * acc + (c.toNat - 48)) 0

/-- Function `getChapterRange(translationId, bookId, chapterArg)`.  When `chapterArg`
is falsy, fetches the chapter list and returns `[1, json.items.length]`.
Otherwise checks the regex, splits on `-` and maps `Number`; the guard
`if (result[1] && (result[1] <= result[0]))` throws the invalid-range error
only when the parsed end is *truthy* (non-zero) and `end <= start`; then
`result[1] = result[1] || result[0]` substitutes the start for a falsy end. -/
def getChapterRange (server : String → Json) (translationId bookId : String)
    (chapterArg : Option String) : Except Err (Nat × Nat) :=
  if jsFalsy chapterArg then
    let json := server (chaptersUrl translationId bookId)
    match validateResponseHasItems json, json.get "items" with
    | .error e, _ => .error e
    | .ok _, .arr items => .ok (1, items.length)
    | .ok _, _ => .error (.malformed json)
  else
    let s := chapterArg.getD ""
    if !matchesChapterGrammar s then .error .invalidFormat
    else
      match splitOnDash s.data with
      | [a] => .ok (digitsToNat a, digitsToNat a)
      | [a, b] =>
        let n := digitsToNat a
        let m := digitsToNat b
        if m ≠ 0 ∧ m ≤ n then .error (.invalidRange s)
        else .ok (n, if m ≠ 0 then m else n)
      | _ => .error .invalidFormat

/-- A server that answers every request with `null`; the explicit-expression
branch of `getChapterRange` never consults the server. -/
def nullServer : String → Json := fun _ => Json.null

/-- The metadata shape the spec describes (amended to what the code checks):
a non-empty audio list whose *first* entry carries a truthy download-URL map
with a truthy `format_mp3_32k` key, plus a truthy `reference.human`. -/
def metadataGoodShape (json : Json) : Prop :=
  ∃ first rest, json.get "audio" = Json.arr (first :: rest) ∧
    (first.get "download_urls").truthy = true ∧
    ((first.get "download_urls").get "format_mp3_32k").truthy = true ∧
    (json.get "reference").truthy = true ∧
    ((json.get "reference").get "human").truthy = true

/-- The spec's description of the output directory name: the book's human
name with whitespace collapsed to underscores, prefixed with the two-digit
zero-padded canonical ordinal `pos` (1-based) and a dash when the canonical
mode flag is set. -/
def specDirname (human : String) (pos : Nat) (canonical : Bool) : String :=
  if canonical then padStart2 (Nat.repr pos) ++ "-" ++ replaceWhitespace human
  else replaceWhitespace human

/-- A fixture book list with books `GEN`, `EXO`, `LEV` (cf. §8 of the spec). -/
def fixtureBooks : List Json :=
  [Json.obj [("usfm", Json.str "GEN"), ("human", Json.str "Genesis")],
   Json.obj [("usfm", Json.str "EXO"), ("human", Json.str "Exodus")],
   Json.obj [("usfm", Json.str "LEV"), ("human", Json.str "Leviticus")]]

/-- A server whose book list for translation id `1` differs from the one it
returns for every other translation id. -/
def twoListServer : String → Json := fun url =>
  if url = bookListUrl "1" then Json.obj [("items", Json.arr [Json.str "Alpha"])]
  else Json.obj [("items", Json.arr [Json.str "Beta"])]

/-- A server whose chapter list has three entries. -/
def threeChapterServer : String → Json :=
  fun _ => Json.obj [("items", Json.arr [Json.null, Json.null, Json.null])]

/-- A server answering every request with an object that has no `items`
member. -/
def emptyObjServer : String → Json := fun _ => Json.obj []

/-- A metadata response that satisfies every audio-side requirement of the
claim but lacks the `reference` member the code also requires. -/
def metaNoReference : Json :=
  Json.obj [("audio", Json.arr
    [Json.obj [("download_urls", Json.obj [("format_mp3_32k", Json.str "//host/a.mp3")])]])]

/-- A metadata response whose first audio entry is well-formed but whose
second audio entry lacks `download_urls` entirely. -/
def metaSecondEntryBad : Json :=
  Json.obj
    [("audio", Json.arr
      [Json.obj [("download_urls", Json.obj [("format_mp3_32k", Json.str "//host/a.mp3")])],
       Json.obj [("bitrate", Json.num 32)]]),
     ("reference", Json.obj [("human", Json.str "Genesis 1")])]

/-! ### Helper lemmas about `splitOnDash`, the chapter grammar and `findIndex` -/

theorem splitOnDash_ne_nil (l : List Char) : splitOnDash l ≠ [] := by
  induction l with
  | nil => simp [splitOnDash]
  | cons c cs ih =>
    by_cases hc : c = '-'
    · simp [splitOnDash, hc]
    · cases h : splitOnDash cs with
      | nil => exact absurd h ih
      | cons p ps => simp [splitOnDash, hc, h]

theorem splitOnDash_no_dash {l : List Char} (h : '-' ∉ l) : splitOnDash l = [l] := by
  induction l with
  | nil => rfl
  | cons c cs ih =>
    rw [List.mem_cons, not_or] at h
    have hc : ¬ (c = '-') := fun e => h.1 e.symm
    simp [splitOnDash, hc, ih h.2]

theorem splitOnDash_append {a : List Char} (b : List Char) (h : '-' ∉ a) :
    splitOnDash (a ++ '-' :: b) = a :: splitOnDash b := by
  induction a with
  | nil => simp [splitOnDash]
  | cons c a' ih =>
    rw [List.mem_cons, not_or] at h
    have hc : ¬ (c = '-') := fun e => h.1 e.symm
    have hrec := ih h.2
    simp [splitOnDash, hc, hrec]

theorem splitOnDash_eq_single {l a : List Char} (h : splitOnDash l = [a]) : l = a := by
  induction l generalizing a with
  | nil =>
    simp [splitOnDash] at h
    exact h.symm
  | cons c cs ih =>
    by_cases hc : c = '-'
    · simp [splitOnDash, hc] at h
      exact absurd h.2 (splitOnDash_ne_nil cs)
    · cases hsp : splitOnDash cs with
      | nil => exact absurd hsp (splitOnDash_ne_nil cs)
      | cons p ps =>
        simp [splitOnDash, hc, hsp] at h
        obtain ⟨h1, h2⟩ := h
        subst h2
        have hcs : cs = p := ih hsp
        rw [← h1, hcs]

theorem splitOnDash_eq_pair {l a b : List Char} (h : splitOnDash l = [a, b]) :
    l = a ++ '-' :: b := by
  induction l generalizing a b with
  | nil => simp [splitOnDash] at h
  | cons c cs ih =>
    by_cases hc : c = '-'
    · simp [splitOnDash, hc] at h
      obtain ⟨h1, h2⟩ := h
      subst h1
      have hcs : cs = b := splitOnDash_eq_single h2
      rw [hcs, hc]
      rfl
    · cases hsp : splitOnDash cs with
      | nil => exact absurd hsp (splitOnDash_ne_nil cs)
      | cons p ps =>
        simp [splitOnDash, hc, hsp] at h
        obtain ⟨h1, h2⟩ := h
        have hpair : splitOnDash cs = [p, b] := by rw [hsp, h2]
        have hcs : cs = p ++ '-' :: b := ih hpair
        rw [← h1, hcs]
        rfl

theorem isDigits_not_dash {cs : List Char} (h : isDigits cs = true) : '-' ∉ cs := by
  intro hm
  unfold isDigits at h
  rw [Bool.and_eq_true] at h
  have := List.all_eq_true.mp h.2 '-' hm
  exact absurd this (by decide)

theorem matchesChapterGrammar_iff (s : String) :
    matchesChapterGrammar s = true ↔
      (isDigits s.data = true ∨
        ∃ a b, s.data = a ++ '-' :: b ∧ isDigits a = true ∧ isDigits b = true) := by
  constructor
  · intro h
    unfold matchesChapterGrammar at h
    cases hsp : splitOnDash s.data with
    | nil => exact absurd hsp (splitOnDash_ne_nil s.data)
    | cons q qs =>
      cases qs with
      | nil =>
        rw [hsp] at h
        left
        rw [splitOnDash_eq_single hsp]
        exact h
      | cons r rs =>
        cases rs with
        | nil =>
          rw [hsp] at h
          rw [Bool.and_eq_true] at h
          exact Or.inr ⟨q, r, splitOnDash_eq_pair hsp, h.1, h.2⟩
        | cons t ts =>
          rw [hsp] at h
          exact absurd h (by simp)
  · intro h
    rcases h with hd | ⟨a, b, heq, ha, hb⟩
    · have hsp : splitOnDash s.data = [s.data] := splitOnDash_no_dash (isDigits_not_dash hd)
      unfold matchesChapterGrammar
      rw [hsp]
      exact hd
    · have hsp : splitOnDash s.data = [a, b] := by
        rw [heq, splitOnDash_append b (isDigits_not_dash ha),
          splitOnDash_no_dash (isDigits_not_dash hb)]
      unfold matchesChapterGrammar
      rw [hsp, Bool.and_eq_true]
      exact ⟨ha, hb⟩

theorem findIndex_eq_neg_one {p : Json → Bool} {l : List Json}
    (h : ∀ x ∈ l, p x = false) : findIndex p l = -1 := by
  induction l with
  | nil => rfl
  | cons x xs ih =>
    have hx := h x (List.mem_cons_self x xs)
    have hxs := ih (fun y hy => h y (List.mem_cons_of_mem x hy))
    simp [findIndex, hx, hxs]

theorem findIndex_eq_first {p : Json → Bool} {l : List Json} {i : Nat}
    (hi : i < l.length) (hp : p (l.getD i Json.undefined) = true)
    (hmin : ∀ j, j < i → p (l.getD j Json.undefined) = false) :
    findIndex p l = i := by
  induction l generalizing i with
  | nil => simp at hi
  | cons x xs ih =>
    cases i with
    | zero =>
      rw [List.getD_cons_zero] at hp
      simp [findIndex, hp]
    | succ m =>
      have hx : p x = false := by
        have := hmin 0 (Nat.succ_pos m)
        rwa [List.getD_cons_zero] at this
      have hi' : m < xs.length := Nat.lt_of_succ_lt_succ (by simpa using hi)
      have hp' : p (xs.getD m Json.undefined) = true := by rwa [List.getD_cons_succ] at hp
      have hmin' : ∀ j, j < m → p (xs.getD j Json.undefined) = false := by
        intro j hj
        have := hmin (j + 1) (Nat.succ_lt_succ hj)
        rwa [List.getD_cons_succ] at this
      have hrec := ih hi' hp' hmin'
      have hnonneg : ¬ ((m : Int) < 0) := by omega
      simp [findIndex, hx, hrec, hnonneg]

theorem exists_first_index {p : Json → Bool} {l : List Json}
    (h : ∃ x ∈ l, p x = true) :
    ∃ i, i < l.length ∧ p (l.getD i Json.undefined) = true ∧
      ∀ j, j < i → p (l.getD j Json.undefined) = false := by
  induction l with
  | nil => simp at h
  | cons x xs ih =>
    by_cases hx : p x = true
    · exact ⟨0, by simp, by rwa [List.getD_cons_zero],
        fun j hj => absurd hj (Nat.not_lt_zero j)⟩
    · have hx' : p x = false := by
        cases hpx : p x with
        | false => rfl
        | true => exact absurd hpx hx
      have h' : ∃ y ∈ xs, p y = true := by
        rcases h with ⟨y, hy, hpy⟩
        rcases List.mem_cons.mp hy with rfl | hmem
        · exact absurd hpy hx
        · exact ⟨y, hmem, hpy⟩
      obtain ⟨i, hi, hp, hmin⟩ := ih h'
      refine ⟨i + 1, by simpa using Nat.succ_lt_succ hi, by rwa [List.getD_cons_succ], ?_⟩
      intro j hj
      cases j with
      | zero => rwa [List.getD_cons_zero]
      | succ j' =>
        rw [List.getD_cons_succ]
        exact hmin j' (Nat.lt_of_succ_lt_succ hj)

/-- Reduction of the explicit-range branch of `getChapterRange`: on an input
built from two digit chunks around a dash, the function reaches the core
guard `if (result[1] && (result[1] <= result[0]))`. -/
theorem getChapterRange_dash_eq (server : String → Json) (tid bid : String)
    {a b : List Char} (ha : isDigits a = true) (hb : isDigits b = true) :
    getChapterRange server tid bid (some ⟨a ++ '-' :: b⟩) =
      if digitsToNat b ≠ 0 ∧ digitsToNat b ≤ digitsToNat a then
        .error (.invalidRange ⟨a ++ '-' :: b⟩)
      else .ok (digitsToNat a, if digitsToNat b ≠ 0 then digitsToNat b else digitsToNat a) := by
  have hsplit : splitOnDash (String.data ⟨a ++ '-' :: b⟩) = [a, b] := by
    show splitOnDash (a ++ '-' :: b) = [a, b]
    rw [splitOnDash_append b (isDigits_not_dash ha),
      splitOnDash_no_dash (isDigits_not_dash hb)]
  have hjf : jsFalsy (some ⟨a ++ '-' :: b⟩) = false := by
    show (a ++ '-' :: b).isEmpty = false
    cases a <;> rfl
  have hmg : matchesChapterGrammar ⟨a ++ '-' :: b⟩ = true := by
    unfold matchesChapterGrammar
    rw [hsplit, Bool.and_eq_true]
    exact ⟨ha, hb⟩
  unfold getChapterRange
  rw [hjf]
  simp only [Bool.false_eq_true, if_false, Option.getD_some]
  rw [hmg]
  simp only [Bool.not_true, Bool.false_eq_true, if_false]
  rw [hsplit]

/-- C1 (amended): parsing `"N-M"` yields `{start: N, end: M}` when `M > N`
and fails with the invalid-range error when `1 <= M <= N`; but when `M = 0`
the truthiness guard `result[1] && (result[1] <= result[0])` skips the check
and `result[1] = result[1] || result[0]` substitutes the start, so the parse
succeeds with `{start: N, end: N}`. -/
theorem chapterRange_dash_parse (server : String → Json) (tid bid : String)
    (a b : List Char) (ha : isDigits a = true) (hb : isDigits b = true) :
    (digitsToNat a < digitsToNat b →
        getChapterRange server tid bid (some ⟨a ++ '-' :: b⟩) =
          .ok (digitsToNat a, digitsToNat b)) ∧
      (0 < digitsToNat b → digitsToNat b ≤ digitsToNat a →
        getChapterRange server tid bid (some ⟨a ++ '-' :: b⟩) =
          .error (.invalidRange ⟨a ++ '-' :: b⟩)) ∧
      (digitsToNat b = 0 →
        getChapterRange server tid bid (some ⟨a ++ '-' :: b⟩) =
          .ok (digitsToNat a, digitsToNat a)) := by
  rw [getChapterRange_dash_eq server tid bid ha hb]
  refine ⟨fun hlt => ?_, fun hpos hle => ?_, fun hz => ?_⟩
  · rw [if_neg (by omega), if_pos (by omega)]
  · rw [if_pos (by omega)]
  · rw [if_neg (by omega), if_neg (by omega)]

/-- Witness for the amended C1 at the concrete input `"2-5"`. -/
theorem chapterRange_dash_parse_witness :
    isDigits ['2'] = true ∧
      getChapterRange nullServer "100" "GEN" (some ⟨['2'] ++ '-' :: ['5']⟩) = .ok (2, 5) :=
  ⟨by decide,
    (chapterRange_dash_parse nullServer "100" "GEN" ['2'] ['5'] (by decide) (by decide)).1
      (by decide)⟩

/-- C1 counterexample: the claim demands that `"5-0"` (where `M = 0 <= N = 5`)
fail with the invalid-range error, but the code parses it successfully to
`{start: 5, end: 5}`. -/
theorem chapterRange_five_dash_zero :
    getChapterRange nullServer "100" "GEN" (some "5-0") = .ok (5, 5) ∧
      ∀ e : Err, getChapterRange nullServer "100" "GEN" (some "5-0") ≠ .error e := by
  refine ⟨rfl, fun e h => ?_⟩
  rw [show getChapterRange nullServer "100" "GEN" (some "5-0") = .ok (5, 5) from rfl] at h
  exact Except.noConfusion h

/-- C2 (amended): a range built from an explicit chapter expression always
satisfies `start <= end`, but neither `1 <= start` nor `end <= total` is
enforced there (and the defaulted range is `{1, total}` untouched). -/
theorem chapterRange_explicit_start_le_end (server : String → Json) (tid bid : String)
    (s : String) (n m : Nat) (hs : jsFalsy (some s) = false)
    (h : getChapterRange server tid bid (some s) = .ok (n, m)) : n ≤ m := by
  unfold getChapterRange at h
  rw [hs] at h
  simp only [Bool.false_eq_true, if_false, Option.getD_some] at h
  by_cases hmg : matchesChapterGrammar s = true
  · rw [hmg] at h
    simp only [Bool.not_true, Bool.false_eq_true, if_false] at h
    cases hsp : splitOnDash s.data with
    | nil => exact absurd hsp (splitOnDash_ne_nil s.data)
    | cons q qs =>
      cases qs with
      | nil =>
        rw [hsp] at h
        simp only [Except.ok.injEq, Prod.mk.injEq] at h
        omega
      | cons r rs =>
        cases rs with
        | nil =>
          rw [hsp] at h
          have hcore : (if digitsToNat r ≠ 0 ∧ digitsToNat r ≤ digitsToNat q then
                (Except.error (Err.invalidRange s) : Except Err (Nat × Nat))
              else
                Except.ok (digitsToNat q,
                  if digitsToNat r ≠ 0 then digitsToNat r else digitsToNat q)) =
              Except.ok (n, m) := h
          by_cases hcond : digitsToNat r ≠ 0 ∧ digitsToNat r ≤ digitsToNat q
          · rw [if_pos hcond] at hcore
            exact Except.noConfusion hcore
          · rw [if_neg hcond] at hcore
            simp only [Except.ok.injEq, Prod.mk.injEq] at hcore
            obtain ⟨h1, h2⟩ := hcore
            have hcases : digitsToNat r = 0 ∨ digitsToNat q < digitsToNat r := by
              by_contra hno
              push_neg at hno
              exact hcond ⟨hno.1, by omega⟩
            rcases hcases with hz | hz
            · rw [if_neg (by omega)] at h2
              omega
            · rw [if_pos (by omega)] at h2
              omega
        | cons t ts =>
          rw [hsp] at h
          exact Except.noConfusion h
  · have hmg' : matchesChapterGrammar s = false := by
      cases hv : matchesChapterGrammar s with
      | false => rfl
      | true => exact absurd hv hmg
    rw [hmg'] at h
    simp only [Bool.not_false, if_true] at h
    exact Except.noConfusion h

/-- C2 counterexample: the explicit expression `"0"` parses successfully to
`{start: 0, end: 0}`, violating the claimed invariant `1 <= start`. -/
theorem chapterRange_zero_breaks_invariant :
    getChapterRange nullServer "100" "GEN" (some "0") = .ok (0, 0) ∧ ¬ (1 ≤ 0) :=
  ⟨rfl, by omega⟩

/-- Witness for the amended C2 at the concrete input `"3"`. -/
theorem chapterRange_explicit_start_le_end_witness :
    jsFalsy (some "3") = false ∧ (3 : Nat) ≤ 3 :=
  ⟨by decide,
    chapterRange_explicit_start_le_end nullServer "100" "GEN" "3" 3 3 (by decide) rfl⟩

/-- C7: a non-empty chapter string that is neither a single run of digits nor
two runs of digits separated by one dash makes `getChapterRange` fail with
the invalid-format error (the regex gate fires before any range is built). -/
theorem chapterRange_invalid_format (server : String → Json) (tid bid : String)
    (s : String) (hne : jsFalsy (some s) = false)
    (hsingle : ¬ isDigits s.data = true)
    (hrange : ¬ ∃ a b, s.data = a ++ '-' :: b ∧ isDigits a = true ∧ isDigits b = true) :
    getChapterRange server tid bid (some s) = .error .invalidFormat := by
  have hmg : matchesChapterGrammar s = false := by
    cases hv : matchesChapterGrammar s with
    | false => rfl
    | true =>
      rcases (matchesChapterGrammar_iff s).mp hv with hd | hr
      · exact absurd hd hsingle
      · exact absurd hr hrange
  unfold getChapterRange
  rw [hne]
  simp only [Bool.false_eq_true, if_false, Option.getD_some]
  rw [hmg]
  rfl

/-- Witness for C7 at the concrete input `"abc"`. -/
theorem chapterRange_invalid_format_witness :
    getChapterRange nullServer "100" "GEN" (some "abc") = .error .invalidFormat :=
  chapterRange_invalid_format nullServer "100" "GEN" "abc" (by decide) (by decide)
    (by
      rintro ⟨a, b, heq, -, -⟩
      have hmem : '-' ∈ String.data "abc" := by
        rw [heq]
        exact List.mem_append_right a (List.mem_cons_self '-' b)
      exact absurd hmem (by decide))

/-- C8: with no chapter expression, `getChapterRange` fetches the chapter
list and resolves the range `{start: 1, end: T}` where `T` is the length of
the `items` array of the response. -/
theorem chapterRange_default_all (server : String → Json) (tid bid : String)
    (arg : Option String) (items : List Json) (hfalsy : jsFalsy arg = true)
    (hresp : (server (chaptersUrl tid bid)).get "items" = Json.arr items) :
    getChapterRange server tid bid arg = .ok (1, items.length) := by
  have hval : validateResponseHasItems (server (chaptersUrl tid bid)) = .ok () := by
    unfold validateResponseHasItems
    rw [hresp]
    rfl
  unfold getChapterRange
  rw [hfalsy]
  simp only [if_true]
  rw [hval, hresp]

/-- Witness for C8: a three-entry chapter list resolves to `{1, 3}`. -/
theorem chapterRange_default_all_witness :
    jsFalsy none = true ∧
      getChapterRange threeChapterServer "100" "GEN" none = .ok (1, 3) :=
  ⟨rfl, chapterRange_default_all threeChapterServer "100" "GEN" none
    [Json.null, Json.null, Json.null] rfl rfl⟩

/-- C3 (amended): the memo cache is global rather than keyed by translation
id: once populated, any later `fetchBookList` — with the same translation id
or a different one, and whatever the server would now answer — returns the
cached list without fetching. -/
theorem fetchBookList_memoized (server : String → Json) (tid : String) (st : St)
    (items : List Json) (h : st.bookListCache = some items) :
    fetchBookList server tid st = (st, .ok items) := by
  unfold fetchBookList
  rw [h]

/-- Witness for the amended C3 on a concrete populated cache. -/
theorem fetchBookList_memoized_witness :
    fetchBookList nullServer "7" ⟨some [Json.null]⟩ = (⟨some [Json.null]⟩, .ok [Json.null]) :=
  fetchBookList_memoized nullServer "7" ⟨some [Json.null]⟩ [Json.null] rfl

/-- C3 counterexample: a first fetch for translation id `1` populates the
cache; a second fetch for translation id `2` is served from that cache and
returns id `1`'s list even though the server's list for id `2` differs. -/
theorem bookListCache_not_keyed :
    fetchBookList twoListServer "1" ⟨none⟩ =
        (⟨some [Json.str "Alpha"]⟩, .ok [Json.str "Alpha"]) ∧
      fetchBookList twoListServer "2" ⟨some [Json.str "Alpha"]⟩ =
        (⟨some [Json.str "Alpha"]⟩, .ok [Json.str "Alpha"]) ∧
      (twoListServer (bookListUrl "2")).get "items" = Json.arr [Json.str "Beta"] :=
  ⟨rfl, rfl, rfl⟩

/-- C4 (amended): metadata validation fails — with the malformed-response
error carrying the full raw payload — exactly when the response lacks a
non-empty audio list, or its *first* entry lacks a download-URL map with the
`format_mp3_32k` key, or `reference.human` is missing; and resolving the
audio URL (`fetchMetadata`) fails, respectively succeeds, accordingly.
Entries beyond the first are not inspected. -/
theorem validateMetadata_characterization (json : Json) :
    (validateMetadataResponse json = .ok () ↔ metadataGoodShape json) ∧
      (validateMetadataResponse json = .error (.malformed json) ↔ ¬ metadataGoodShape json) ∧
      (¬ metadataGoodShape json → fetchMetadata json = .error (.malformed json)) ∧
      (metadataGoodShape json → ∃ md, fetchMetadata json = .ok md) := by
  have hkey : validateMetadataResponse json = .ok () ↔ metadataGoodShape json := by
    unfold validateMetadataResponse metadataGoodShape
    cases haudio : json.get "audio" with
    | arr items =>
      cases items with
      | nil => simp [Json.isArray, Json.lengthVal, Json.truthy]
      | cons first rest =>
        simp [Json.isArray, Json.lengthVal, Json.truthy, Json.idx]
        have hlen : ¬((rest.length : Int) + 1 = 0) := by omega
        tauto
    | undefined => simp [Json.isArray]
    | null => simp [Json.isArray]
    | bool b => simp [Json.isArray]
    | num n => simp [Json.isArray]
    | str s => simp [Json.isArray]
    | obj fields => simp [Json.isArray]
  have hdisj : validateMetadataResponse json = .error (.malformed json) ∨
      validateMetadataResponse json = .ok () := by
    unfold validateMetadataResponse
    split
    · exact Or.inl rfl
    · exact Or.inr rfl
  have herr : validateMetadataResponse json = .error (.malformed json) ↔
      ¬ metadataGoodShape json := by
    constructor
    · intro he hshape
      have hok := hkey.mpr hshape
      rw [he] at hok
      exact Except.noConfusion hok
    · intro hns
      rcases hdisj with he | hok
      · exact he
      · exact absurd (hkey.mp hok) hns
  refine ⟨hkey, herr, fun hns => ?_, fun hs => ?_⟩
  · have he := herr.mpr hns
    unfold fetchMetadata
    rw [he]
  · have hok := hkey.mpr hs
    unfold fetchMetadata
    rw [hok]
    exact ⟨_, rfl⟩

/-- C4 counterexample: `metaNoReference` satisfies every audio-side condition
of the claim (non-empty audio list, first — and only — entry carrying the
bitrate key), so the claim says resolution succeeds; the code rejects it
because `reference` is absent.  Conversely `metaSecondEntryBad`, whose second
audio entry has no download-URL map at all, should fail per the claim, yet
`fetchMetadata` succeeds: only entry 0 is inspected. -/
theorem metadataValidation_counterexample :
    validateMetadataResponse metaNoReference = .error (.malformed metaNoReference) ∧
      (metaNoReference.get "audio").isArray = true ∧
      (metaNoReference.get "audio").lengthVal.truthy = true ∧
      ((((metaNoReference.get "audio").idx 0).get "download_urls").get
        "format_mp3_32k").truthy = true ∧
      fetchMetadata metaSecondEntryBad =
        .ok { audioUrl := "https://host/a.mp3", chapterName := "Genesis 1" } ∧
      ((metaSecondEntryBad.get "audio").idx 1).get "download_urls" = Json.undefined :=
  ⟨rfl, rfl, rfl, rfl, rfl, rfl⟩

/-- Witness for the amended C4: `metaSecondEntryBad` has the (first-entry)
good shape, and resolution indeed succeeds on it. -/
theorem validateMetadata_characterization_witness :
    metadataGoodShape metaSecondEntryBad ∧
      ∃ md, fetchMetadata metaSecondEntryBad = .ok md :=
  ⟨⟨_, _, rfl, rfl, rfl, rfl, rfl⟩,
    (validateMetadata_characterization metaSecondEntryBad).2.2.2
      ⟨_, _, rfl, rfl, rfl, rfl, rfl⟩⟩

/-- C5: when the catalog response carries no `items` array (member absent or
of another type), a first-time `fetchBookList` fails with the
malformed-response error carrying the raw payload — never with the not-found
error, and never with an `ok` (in particular not an empty list). -/
theorem fetchBookList_malformed (server : String → Json) (tid : String)
    (h : ((server (bookListUrl tid)).get "items").isArray = false) :
    fetchBookList server tid ⟨none⟩ =
        (⟨none⟩, .error (.malformed (server (bookListUrl tid)))) ∧
      validateResponseHasItems (server (bookListUrl tid)) =
        .error (.malformed (server (bookListUrl tid))) ∧
      (∀ items : List Json, (fetchBookList server tid ⟨none⟩).2 ≠ .ok items) ∧
      (∀ code : String, (fetchBookList server tid ⟨none⟩).2 ≠ .error (.notFound code)) := by
  have hval : validateResponseHasItems (server (bookListUrl tid)) =
      .error (.malformed (server (bookListUrl tid))) := by
    unfold validateResponseHasItems
    rw [h]
    rfl
  have hmain : fetchBookList server tid ⟨none⟩ =
      (⟨none⟩, .error (.malformed (server (bookListUrl tid)))) := by
    unfold fetchBookList
    simp only [hval]
  refine ⟨hmain, hval, fun items hx => ?_, fun code hx => ?_⟩
  · rw [hmain] at hx
    exact Except.noConfusion hx
  · rw [hmain] at hx
    simp only [Except.error.injEq] at hx
    exact Err.noConfusion hx

/-- Witness for C5: a response with no `items` member at all. -/
theorem fetchBookList_malformed_witness :
    ((emptyObjServer (bookListUrl "100")).get "items").isArray = false ∧
      fetchBookList emptyObjServer "100" ⟨none⟩ =
        (⟨none⟩, .error (.malformed (Json.obj []))) :=
  ⟨rfl, (fetchBookList_malformed emptyObjServer "100" rfl).1⟩

/-- C6: with the book list fetched (cache holding `items`), a book code
matching no entry's `usfm` makes `mkdir` print the full book list and fail
with the not-found error, while a present code succeeds, resolving the first
matching entry (the directory name is derived from it). -/
theorem mkdir_book_resolution (server : String → Json) (tid bookId : String)
    (canonical : Bool) (items : List Json) :
    ((∀ item ∈ items, (item.get "usfm").strEq bookId = false) →
        mkdir server tid bookId canonical ⟨some items⟩ =
          (⟨some items⟩, bookListLines items, .error (.notFound bookId))) ∧
      ((∃ item ∈ items, (item.get "usfm").strEq bookId = true) →
        ∃ i, i < items.length ∧
          ((items.getD i Json.undefined).get "usfm").strEq bookId = true ∧
          (∀ j, j < i → ((items.getD j Json.undefined).get "usfm").strEq bookId = false) ∧
          mkdir server tid bookId canonical ⟨some items⟩ =
            (⟨some items⟩, ["Making directory " ++ dirnameOf items i canonical],
              .ok (dirnameOf items i canonical))) := by
  have hfetch : fetchBookList server tid ⟨some items⟩ = (⟨some items⟩, .ok items) := rfl
  constructor
  · intro hall
    have hidx : findIndex (fun item => (item.get "usfm").strEq bookId) items = -1 :=
      findIndex_eq_neg_one hall
    unfold mkdir
    rw [hfetch]
    simp only [hidx]
    rw [if_pos (show (-1 : Int) < 0 by omega)]
  · intro hex
    obtain ⟨i, hi, hp, hmin⟩ := exists_first_index hex
    have hidx : findIndex (fun item => (item.get "usfm").strEq bookId) items = (i : Int) :=
      findIndex_eq_first hi hp hmin
    refine ⟨i, hi, hp, hmin, ?_⟩
    unfold mkdir
    rw [hfetch]
    simp only [hidx]
    rw [if_neg (show ¬ ((i : Int) < 0) by omega), Int.toNat_natCast]

/-- Witness for C6 on the `GEN`/`EXO`/`LEV` fixture with code `LEV`. -/
theorem mkdir_book_resolution_witness :
    (∃ item ∈ fixtureBooks, (item.get "usfm").strEq "LEV" = true) ∧
      ∃ i, i < fixtureBooks.length ∧
        ((fixtureBooks.getD i Json.undefined).get "usfm").strEq "LEV" = true ∧
        (∀ j, j < i → ((fixtureBooks.getD j Json.undefined).get "usfm").strEq "LEV" = false) ∧
        mkdir nullServer "100" "LEV" false ⟨some fixtureBooks⟩ =
          (⟨some fixtureBooks⟩, ["Making directory " ++ dirnameOf fixtureBooks i false],
            .ok (dirnameOf fixtureBooks i false)) :=
  ⟨by decide, (mkdir_book_resolution nullServer "100" "LEV" false fixtureBooks).2 (by decide)⟩

/-- C9: a resolved audio URL beginning with `//` is returned with `https:`
prefixed; any other URL is returned unchanged — and `fetchMetadata` applies
exactly this normalization to the raw `format_mp3_32k` value. -/
theorem audioUrl_normalization (u : String) :
    (startsWithDoubleSlash u = true → normalizeAudioUrl u = "https:" ++ u) ∧
      (startsWithDoubleSlash u = false → normalizeAudioUrl u = u) ∧
      (∀ json md, fetchMetadata json = .ok md →
        md.audioUrl = normalizeAudioUrl
          ((((json.get "audio").idx 0).get "download_urls").get "format_mp3_32k").asString) := by
  refine ⟨fun h => ?_, fun h => ?_, fun json md h => ?_⟩
  · unfold normalizeAudioUrl
    rw [h]
    rfl
  · unfold normalizeAudioUrl
    rw [h]
    rfl
  · unfold fetchMetadata at h
    cases hv : validateMetadataResponse json with
    | error e =>
      rw [hv] at h
      exact Except.noConfusion h
    | ok u' =>
      rw [hv] at h
      simp only [Except.ok.injEq] at h
      rw [← h]

/-- Witness for C9: `//host/path` becomes `https://host/path`. -/
theorem audioUrl_normalization_witness :
    startsWithDoubleSlash "//host/path" = true ∧
      normalizeAudioUrl "//host/path" = "https://host/path" :=
  ⟨rfl, by
    rw [(audioUrl_normalization "//host/path").1 rfl]
    decide⟩

/-- C10: when the book is first matched at 0-based position `i`, `mkdir`
produces the directory name the spec describes: the entry's human name with
every whitespace run replaced by an underscore, prefixed — in canonical mode
— with the 1-based ordinal `i + 1` zero-padded to two digits and a dash. -/
theorem mkdir_dirname_spec (server : String → Json) (tid bookId : String)
    (canonical : Bool) (items : List Json) (i : Nat) (hi : i < items.length)
    (hp : ((items.getD i Json.undefined).get "usfm").strEq bookId = true)
    (hmin : ∀ j, j < i → ((items.getD j Json.undefined).get "usfm").strEq bookId = false) :
    mkdir server tid bookId canonical ⟨some items⟩ =
      (⟨some items⟩,
        ["Making directory " ++
          specDirname ((items.getD i Json.undefined).get "human").asString (i + 1) canonical],
        .ok (specDirname ((items.getD i Json.undefined).get "human").asString (i + 1) canonical)) := by
  have hfetch : fetchBookList server tid ⟨some items⟩ = (⟨some items⟩, .ok items) := rfl
  have hidx : findIndex (fun item => (item.get "usfm").strEq bookId) items = (i : Int) :=
    findIndex_eq_first hi hp hmin
  unfold mkdir
  rw [hfetch]
  simp only [hidx]
  rw [if_neg (show ¬ ((i : Int) < 0) by omega), Int.toNat_natCast]
  rfl

/-- Witness for C10: on the `GEN`/`EXO`/`LEV` fixture, requesting `LEV` with
canonical mode yields the directory name `03-Leviticus`, i.e. prefixed
`03-`. -/
theorem mkdir_dirname_spec_witness :
    mkdir nullServer "100" "LEV" true ⟨some fixtureBooks⟩ =
        (⟨some fixtureBooks⟩, ["Making directory " ++ "03-Leviticus"], .ok "03-Leviticus") ∧
      ("03-Leviticus").data.take 3 = ['0', '3', '-'] :=
  ⟨mkdir_dirname_spec nullServer "100" "LEV" true fixtureBooks 2 (by decide) (by decide)
      (by decide),
    by decide⟩

end Abdl
